import Mathlib

/-!
Verification of the MorseMuse repository: a shallow embedding of

* the timing decoder `MorseInput` (component file `MorseInput.tsx`),
* the letters-mode session `LearningInterface` (`LearningInterface.tsx`),
* the words-mode loader and Morse converter (`app/routes/learn.words.tsx`,
  `app/utils/morseConverter.ts`),

with theorems checking the natural-language specification against the code.
Time is modelled as `Nat` milliseconds (`Date.now()` values); the single
`setTimeout` handle stored in `charTimer.current` is modelled as an
`Option Nat` holding the timer's deadline.
-/

namespace MorseMuse

/-! ## Timing decoder (`MorseInput.tsx`) -/

/-- `const ditDuration = 150` (milliseconds for a dot). -/
def ditDuration : Nat := 150

/-- `const dahDuration = ditDuration * 3`. -/
def dahDuration : Nat := ditDuration * 3

/-- `const symbolSpaceThreshold = ditDuration * 1.5` (time to distinguish
dit/dah).  `150 * 1.5 = 225` exactly, so `Nat` division by 2 is lossless. -/
def symbolSpaceThreshold : Nat := ditDuration * 3 / 2

/-- `const interCharSpace = ditDuration * 3` (gap signalling end of char). -/
def interCharSpace : Nat := ditDuration * 3

/-- The mutable state of the `MorseInput` component: `rawInput` React state,
`isPressing` React state, and the refs `pressStartTime`, `lastReleaseTime`,
`charTimer` (deadline of the pending timeout, if any), `currentMorseChar`. -/
structure DecoderState where
  rawInput : String
  isPressing : Bool
  pressStartTime : Option Nat
  lastReleaseTime : Nat
  charTimer : Option Nat
  currentMorseChar : String
  deriving Repr, DecidableEq

/-- Initial decoder state at mount time `t` (`lastReleaseTime` is initialised
to `Date.now()`; everything else empty/idle). -/
def initDecoder (t : Nat) : DecoderState :=
  { rawInput := ""
    isPressing := false
    pressStartTime := none
    lastReleaseTime := t
    charTimer := none
    currentMorseChar := "" }

/-- `clearTimers`: cancel the pending char timeout (if any) and null the ref. -/
def clearTimers (s : DecoderState) : DecoderState :=
  { s with charTimer := none }

/-- `clearInput` (exposed through the imperative handle): clear timers, empty
both buffers, drop the in-progress press, stamp `lastReleaseTime`. -/
def clearInput (t : Nat) (s : DecoderState) : DecoderState :=
  { clearTimers s with
    rawInput := ""
    currentMorseChar := ""
    pressStartTime := none
    lastReleaseTime := t
    isPressing := false }

/-- `completeInputSequence`: call `onInputComplete(currentMorseChar)` only when
the buffer is non-empty (JS truthiness of the string); the state is untouched.
Returns the emitted string, if any. -/
def completeInputSequence (s : DecoderState) : Option String :=
  if s.currentMorseChar = "" then none else some s.currentMorseChar

/-- The body of the `setTimeout` callback armed in `handlePressEnd`: run
`completeInputSequence`, then null out `charTimer.current`. -/
def fireCharTimer (s : DecoderState) : DecoderState × Option String :=
  ({ s with charTimer := none }, completeInputSequence s)

/-- `handlePressStart` at time `t`: clear pending timers, set `isPressing`,
record `pressStartTime = Date.now()`. -/
def handlePressStart (t : Nat) (s : DecoderState) : DecoderState :=
  { clearTimers s with isPressing := true, pressStartTime := some t }

/-- Classification of one press of duration `d`:
`pressDuration < symbolSpaceThreshold ? '.' : '-'`. -/
def classifySymbol (d : Nat) : Char :=
  if d < symbolSpaceThreshold then '.' else '-'

/-- `handlePressEnd` at time `t`.  The guard `if (!pressStartTime.current)
return` drops the event when the ref is `null` or holds the falsy number `0`.
Otherwise: classify the duration, append the symbol to `currentMorseChar` and
`rawInput`, clear the press, stamp the release time, clear timers and arm the
char timer `interCharSpace` in the future. -/
def handlePressEnd (t : Nat) (s : DecoderState) : DecoderState :=
  match s.pressStartTime with
  | none => s
  | some t0 =>
    if t0 = 0 then s
    else
      let symbol := classifySymbol (t - t0)
      { s with
        currentMorseChar := s.currentMorseChar.push symbol
        rawInput := s.rawInput.push symbol
        isPressing := false
        pressStartTime := none
        lastReleaseTime := t
        charTimer := some (t + interCharSpace) }

/-- External events delivered to the decoder, each carrying its
`Date.now()` timestamp.  `reset` is the parent's `clearInput` call. -/
inductive DEvent where
  | press (t : Nat)
  | release (t : Nat)
  | reset (t : Nat)
  deriving Repr, DecidableEq

/-- Timestamp of an event. -/
def DEvent.time : DEvent → Nat
  | .press t => t
  | .release t => t
  | .reset t => t

/-- The event loop delivers a due timeout before the next handler runs: if the
armed char timer's deadline has passed by time `t`, its callback fires. -/
def autoFire (t : Nat) (s : DecoderState) : DecoderState × Option String :=
  match s.charTimer with
  | some d => if d ≤ t then fireCharTimer s else (s, none)
  | none => (s, none)

/-- Handle one external event (after due timers have fired). -/
def handleEvent : DEvent → DecoderState → DecoderState
  | .press t, s => handlePressStart t s
  | .release t, s => handlePressEnd t s
  | .reset t, s => clearInput t s

/-- One step of the timer-driven event loop: fire a due timer, then run the
event's handler; collect everything emitted through `onInputComplete`. -/
def stepTimed (s : DecoderState) (e : DEvent) : DecoderState × List String :=
  let fired := autoFire e.time s
  (handleEvent e fired.1, fired.2.toList)

/-- Run the decoder over a list of timestamped events, collecting all
completion emissions in order. -/
def runTimed : List DEvent → DecoderState → DecoderState × List String
  | [], s => (s, [])
  | e :: es, s =>
    let step := stepTimed s e
    let rest := runTimed es step.1
    (rest.1, step.2 ++ rest.2)

/-! ## Morse converter (`app/utils/morseConverter.ts`) -/

/-- The `morseCodeMap` used by the word-mode converter: A–Z, 0–9 and the
punctuation set, with no entry for the space character.  Kept as an ordered
association list, mirroring JS object insertion order. -/
def morseCodeMapWords : List (Char × String) :=
  [('A', ".-"), ('B', "-..."), ('C', "-.-."), ('D', "-.."), ('E', "."),
   ('F', "..-."), ('G', "--."), ('H', "...."), ('I', ".."), ('J', ".---"),
   ('K', "-.-"), ('L', ".-.."), ('M', "--"), ('N', "-."), ('O', "---"),
   ('P', ".--."), ('Q', "--.-"), ('R', ".-."), ('S', "..."), ('T', "-"),
   ('U', "..-"), ('V', "...-"), ('W', ".--"), ('X', "-..-"), ('Y', "-.--"),
   ('Z', "--.."),
   ('1', ".----"), ('2', "..---"), ('3', "...--"), ('4', "....-"),
   ('5', "....."), ('6', "-...."), ('7', "--..."), ('8', "---.."),
   ('9', "----."), ('0', "-----"),
   ('.', ".-.-.-"), (',', "--..--"), ('?', "..--.."), ('\'', ".----."),
   ('!', "-.-.--"), ('/', "-..-."), ('(', "-.--."), (')', "-.--.-"),
   ('&', ".-..."), (':', "---..."), (';', "-.-.-."), ('=', "-...-"),
   ('+', ".-.-."), ('-', "-....-"), ('_', "..--.-"), ('"', ".-..-."),
   ('$', "...-..-"), ('@', ".--.-.")]

/-- `morseCodeMap[char]` property access: first (only) entry with that key. -/
def lookupMorse (m : List (Char × String)) (c : Char) : Option String :=
  (m.find? fun p => p.1 == c).map Prod.snd

/-- `reverseMorseCodeMap[code]`: the reverse object is built by a `reduce`
with `acc[value] = key`, so on duplicate values the *last* key wins. -/
def reverseLookup (code : String) : Option Char :=
  (morseCodeMapWords.reverse.find? fun p => p.2 == code).map Prod.fst

/-- JS `toUpperCase` on the ASCII strings this app handles: uppercase every
character. -/
def upper (s : String) : String := ⟨s.data.map Char.toUpper⟩

/-- JS `Array.prototype.join(' ')` on a list of strings. -/
def joinSpace : List String → String
  | [] => ""
  | [x] => x
  | x :: xs => x ++ " " ++ joinSpace xs

/-- JS `String.prototype.split(' ')` on the character list: split at every
space, keeping empty pieces. -/
def splitOnSpace : List Char → List Char → List String
  | [], cur => [⟨cur.reverse⟩]
  | c :: cs, cur =>
    if c = ' ' then ⟨cur.reverse⟩ :: splitOnSpace cs []
    else splitOnSpace cs (c :: cur)

/-- JS `String.prototype.trim` on the ASCII strings this app handles. -/
def trimStr (s : String) : String :=
  ⟨((s.data.dropWhile Char.isWhitespace).reverse.dropWhile
      Char.isWhitespace).reverse⟩

/-- Does the character-list `s` start with `pat`? -/
def startsWithChars : List Char → List Char → Bool
  | [], _ => true
  | _ :: _, [] => false
  | p :: ps, c :: cs => p == c && startsWithChars ps cs

/-- JS `String.prototype.includes`: does `s` contain `pat` as a substring? -/
def containsSub (pat : List Char) : List Char → Bool
  | [] => pat.isEmpty
  | c :: cs => startsWithChars pat (c :: cs) || containsSub pat cs

/-- `wordToMorse`: uppercase, map every character through the table (empty
string when absent), drop the empty codes, join with a single space. -/
def wordToMorse (word : String) : String :=
  if word = "" then ""
  else
    joinSpace
      (((upper word).data.map fun c =>
        (lookupMorse morseCodeMapWords c).getD "").filter
          fun code => code ≠ "")

/-- `morseToWord`: trim, split on single spaces, translate every code through
the reverse map (`'?'` when unknown), concatenate. -/
def morseToWord (morse : String) : String :=
  String.mk ((splitOnSpace (trimStr morse).data []).map
    fun code => (reverseLookup code).getD '?')

/-! ## Word-mode loader (`app/routes/learn.words.tsx`) -/

/-- Outcome of the Gemini exchange as seen by the loader: missing API key,
a thrown transport/API error with its message, or a returned text payload. -/
inductive FetchOutcome where
  | noApiKey
  | failure (msg : String)
  | payload (text : String)
  deriving Repr, DecidableEq

/-- The JSON the loader returns: `{ word, error }`. -/
structure LoaderResult where
  word : String
  error : Option String
  deriving Repr, DecidableEq

/-- `/^[A-Z]+$/.test(text)`: non-empty and every character in A–Z. -/
def regexUpperAZ (t : String) : Bool :=
  !(t == "") && t.data.all fun c => 'A' ≤ c && c ≤ 'Z'

/-- `error.message?.includes('API key not valid')`. -/
def mentionsBadKey (msg : String) : Bool :=
  containsSub "API key not valid".data msg.data

/-- The loader's rejection test:
`!text || !/^[A-Z]+$/.test(text) || text.includes(' ')`. -/
def invalidPayloadCond (t : String) : Bool :=
  t == "" || !(regexUpperAZ t) || t.data.contains ' '

/-- The word-mode `loader`, as a function of the fetch outcome: no key →
`{word: "ERROR"}`; payload → trim, uppercase, validate (rejects into the
`"HELLO"` fallback); thrown error → `"MORSE"` fallback with a message
depending on whether the failure mentions a bad API key. -/
def loader : FetchOutcome → LoaderResult
  | .noApiKey => ⟨"ERROR", some "API key not configured."⟩
  | .payload raw =>
    let text := upper (trimStr raw)
    if invalidPayloadCond text then
      ⟨"HELLO", some "Received invalid word format, using default."⟩
    else ⟨text, none⟩
  | .failure msg =>
    ⟨"MORSE",
      some (if mentionsBadKey msg then "Invalid API Key."
            else "Failed to fetch word from API.")⟩

/-- The spec's acceptance predicate: after trimming and uppercasing, the
payload is a non-empty string of letters A–Z only (hence no whitespace). -/
def acceptablePayload (t : String) : Prop :=
  t ≠ "" ∧ ∀ c ∈ t.data, 'A' ≤ c ∧ c ≤ 'Z'

instance (t : String) : Decidable (acceptablePayload t) := by
  unfold acceptablePayload; infer_instance

/-! ## Letters-mode session (`LearningInterface.tsx`) -/

/-- The letters-only `morseCodeMap` of `LearningInterface` (A–Z, in JS
object insertion order). -/
def lettersMap : List (Char × String) :=
  [('A', ".-"), ('B', "-..."), ('C', "-.-."), ('D', "-.."), ('E', "."),
   ('F', "..-."), ('G', "--."), ('H', "...."), ('I', ".."), ('J', ".---"),
   ('K', "-.-"), ('L', ".-.."), ('M', "--"), ('N', "-."), ('O', "---"),
   ('P', ".--."), ('Q', "--.-"), ('R', ".-."), ('S', "..."), ('T', "-"),
   ('U', "..-"), ('V', "...-"), ('W', ".--"), ('X', "-..-"), ('Y', "-.--"),
   ('Z', "--..")]

/-- `const learningSequence = Object.keys(morseCodeMap)`. -/
def learningSequence : List Char := lettersMap.map Prod.fst

/-- The session's `validationState`. -/
inductive SValidation where
  | idle
  | correct
  | incorrect
  deriving Repr, DecidableEq

/-- The two `setTimeout`s the session can arm in `handleInputComplete`:
the auto-advance after a correct answer and the reset after an incorrect
one. -/
inductive PendingAction where
  | advance
  | retry
  deriving Repr, DecidableEq

/-- Delay each session timeout is armed with: 800 ms for the advance,
1500 ms for the retry reset. -/
def pendingDelayMs : PendingAction → Nat
  | .advance => 800
  | .retry => 1500

/-- State of `LearningInterface`: `currentItemIndex`, `validationState`,
`feedbackMessage`, the child `MorseInput` state reached through the ref, and
the pending session timeout, if any. -/
structure SessionState where
  currentItemIndex : Nat
  validationState : SValidation
  feedbackMessage : String
  decoder : DecoderState
  pending : Option PendingAction
  deriving Repr, DecidableEq

/-- Initial session state (index 0, idle, freshly mounted input). -/
def initSession (t : Nat) : SessionState :=
  { currentItemIndex := 0
    validationState := .idle
    feedbackMessage := ""
    decoder := initDecoder t
    pending := none }

/-- `handleInputComplete(inputMorse)`: bail out when
`learningSequence[currentItemIndex]` is `undefined`; otherwise compare with
`morseCodeMap[currentItem]`, set `correct`/`incorrect` feedback and arm the
corresponding timeout. -/
def handleInputComplete (inputMorse : String) (s : SessionState) :
    SessionState :=
  match learningSequence[s.currentItemIndex]? with
  | none => s
  | some item =>
    let expectedMorse := (lookupMorse lettersMap item).getD ""
    if inputMorse = expectedMorse then
      { s with
        validationState := .correct
        feedbackMessage := "Correct!"
        pending := some .advance }
    else
      { s with
        validationState := .incorrect
        feedbackMessage := "Incorrect. Expected: " ++ expectedMorse
        pending := some .retry }

/-- The session timeout callback at time `t`: the advance either moves to the
next item (resetting state and clearing the child input) or, on the last
item, only swaps in the congratulations message; the retry resets validation
and clears the child input, keeping the same item. -/
def fireSessionTimer (t : Nat) (s : SessionState) : SessionState :=
  match s.pending with
  | none => s
  | some .advance =>
    if s.currentItemIndex < learningSequence.length - 1 then
      { s with
        currentItemIndex := s.currentItemIndex + 1
        validationState := .idle
        feedbackMessage := ""
        decoder := clearInput t s.decoder
        pending := none }
    else
      { s with
        feedbackMessage := "Congratulations! You completed all letters."
        pending := none }
  | some .retry =>
    { s with
      validationState := .idle
      feedbackMessage := ""
      decoder := clearInput t s.decoder
      pending := none }

/-- Session-level events: a completion arriving from the decoder, or a
session timeout firing at time `t`. -/
inductive SEvent where
  | complete (input : String)
  | timer (t : Nat)
  deriving Repr, DecidableEq

/-- One session step. -/
def sessionStep (s : SessionState) : SEvent → SessionState
  | .complete input => handleInputComplete input s
  | .timer t => fireSessionTimer t s

/-- Run the session over a list of events. -/
def runSession (evts : List SEvent) (s : SessionState) : SessionState :=
  evts.foldl sessionStep s

/-- A concrete full play-through: every letter A–Z answered with its correct
code, each followed by its advance timeout. -/
def completedSession : SessionState :=
  (lettersMap.map Prod.snd).foldl
    (fun s code => fireSessionTimer 0 (handleInputComplete code s))
    (initSession 0)

/-- The spec's buffer invariant: a string made only of `'.'` and `'-'`. -/
def ditDahOnly (str : String) : Prop :=
  ∀ c ∈ str.data, c = '.' ∨ c = '-'

end MorseMuse

namespace MorseMuse

/-! ## Theorems about the decoder -/

/-- C1: a press-release cycle whose recorded duration is below
`symbolSpaceThreshold = 1.5 × ditDuration = 225` appends `'.'` to the buffer,
and one at or above it appends `'-'`. -/
theorem pressEnd_classifies_dit_dah (s : DecoderState) (t t0 : Nat)
    (hstart : s.pressStartTime = some t0) (h0 : 0 < t0) :
    symbolSpaceThreshold = 225 ∧
    (t - t0 < symbolSpaceThreshold →
      (handlePressEnd t s).currentMorseChar = s.currentMorseChar.push '.') ∧
    (symbolSpaceThreshold ≤ t - t0 →
      (handlePressEnd t s).currentMorseChar = s.currentMorseChar.push '-') := by
  refine ⟨rfl, ?_, ?_⟩ <;> intro hd <;>
    simp only [handlePressEnd, hstart, Nat.pos_iff_ne_zero.mp h0, if_false,
      classifySymbol]
  · simp [hd]
  · simp [Nat.not_lt.mpr hd]

/-- Witness for C1 at a concrete press of 100 ms (dit) starting at `t0 = 10`. -/
theorem pressEnd_classifies_dit_dah_witness :
    (handlePressEnd 110 { initDecoder 0 with
      pressStartTime := some 10 }).currentMorseChar = "".push '.' :=
  (pressEnd_classifies_dit_dah _ 110 10 rfl (by decide)).2.1 (by decide)

/-- C2: in a press–release–press trace where the second press arrives before
`interCharSpace = 3 × ditDuration` has elapsed since the release, no
completion is emitted, the second press leaves no timer pending, and the
buffer still holds the first classified symbol; moreover `handlePressStart`
always cancels any pending completion timer. -/
theorem rapid_press_no_premature_completion (t0 t1 t2 : Nat)
    (h0 : 0 < t0) (hgap : t2 < t1 + interCharSpace) :
    (runTimed [.press t0, .release t1, .press t2] (initDecoder 0)).2 = [] ∧
    (runTimed [.press t0, .release t1, .press t2]
      (initDecoder 0)).1.charTimer = none ∧
    (runTimed [.press t0, .release t1, .press t2]
      (initDecoder 0)).1.currentMorseChar
        = String.push "" (classifySymbol (t1 - t0)) ∧
    (∀ s : DecoderState, (handlePressStart t2 s).charTimer = none) := by
  have h0' : t0 ≠ 0 := Nat.pos_iff_ne_zero.mp h0
  have hle : ¬ (t1 + interCharSpace ≤ t2) := Nat.not_le.mpr hgap
  refine ⟨?_, ?_, ?_, fun s => rfl⟩ <;>
    simp [runTimed, stepTimed, autoFire, handleEvent, handlePressStart,
      handlePressEnd, clearTimers, initDecoder, DEvent.time, h0', hle]

/-- Witness for C2: presses starting at 10 ms and 300 ms around a 100 ms-long
first press; 300 < 110 + 450, so nothing is emitted. -/
theorem rapid_press_no_premature_completion_witness :
    (runTimed [.press 10, .release 110, .press 300] (initDecoder 0)).2 = [] :=
  (rapid_press_no_premature_completion 10 110 300 (by decide) (by decide)).1

/-- C9: firing the completion timer emits the buffer but leaves both
`currentMorseChar` and `rawInput` untouched; only the exposed `clearInput`
reset empties them. -/
theorem fire_preserves_buffer (s : DecoderState) :
    (fireCharTimer s).1.currentMorseChar = s.currentMorseChar ∧
    (fireCharTimer s).1.rawInput = s.rawInput ∧
    ∀ t, (clearInput t s).currentMorseChar = "" ∧
      (clearInput t s).rawInput = "" := by
  exact ⟨rfl, rfl, fun _ => ⟨rfl, rfl⟩⟩

/-- Helper for C10: whatever `autoFire` emits came out of
`completeInputSequence`, which guards against the empty buffer. -/
theorem autoFire_emits_nonempty (t : Nat) (s : DecoderState) (out : String)
    (h : out ∈ (autoFire t s).2.toList) : out ≠ "" := by
  unfold autoFire at h
  rcases hct : s.charTimer with _ | d
  · rw [hct] at h; simp at h
  · rw [hct] at h; dsimp only at h
    by_cases hd : d ≤ t
    · rw [if_pos hd] at h
      unfold fireCharTimer completeInputSequence at h
      by_cases hb : s.currentMorseChar = ""
      · simp [hb] at h
      · simp only [if_neg hb, Option.toList_some, List.mem_singleton] at h
        subst h; exact hb
    · rw [if_neg hd] at h; simp at h

/-- Helper for C10: every string ever emitted by a run of the decoder is
non-empty, from any starting state. -/
theorem runTimed_emits_nonempty (evts : List DEvent) :
    ∀ (s : DecoderState) (out : String),
      out ∈ (runTimed evts s).2 → out ≠ "" := by
  induction evts with
  | nil => intro s out h; simp [runTimed] at h
  | cons e es ih =>
    intro s out h
    simp only [runTimed, List.mem_append] at h
    rcases h with h | h
    · exact autoFire_emits_nonempty e.time s out h
    · exact ih _ out h

/-- C10: the decoder never emits an empty completion: every string delivered
through `onInputComplete` over any event sequence from the initial state is
non-empty (the `completeInputSequence` guard skips the call when the buffer
is empty). -/
theorem no_empty_completion (evts : List DEvent) (t : Nat) (out : String)
    (h : out ∈ (runTimed evts (initDecoder t)).2) : out ≠ "" :=
  runTimed_emits_nonempty evts (initDecoder t) out h

/-- Witness for C10: a full press/release/quiet-wait run that does emit. -/
theorem no_empty_completion_witness :
    "." ∈ (runTimed [.press 10, .release 110, .press 1000]
      (initDecoder 0)).2 ∧ "." ≠ "" :=
  ⟨by decide, no_empty_completion [.press 10, .release 110, .press 1000] 0 "."
    (by decide)⟩

/-! ## Theorems about the converter and loader -/

/-- C5: every code in the word-mode table round-trips through decode-then-
encode; the table has no space entry at all, so the spec's one permitted
exception does not even arise. -/
theorem encode_decode_roundtrip :
    (∀ p ∈ morseCodeMapWords, wordToMorse (morseToWord p.2) = p.2) ∧
    ∀ p ∈ morseCodeMapWords, p.1 ≠ ' ' := by decide

/-- Witness for C5: the `'A'` entry round-trips. -/
theorem encode_decode_roundtrip_witness :
    ('A', ".-") ∈ morseCodeMapWords ∧ wordToMorse (morseToWord ".-") = ".-" :=
  ⟨by decide, encode_decode_roundtrip.1 ('A', ".-") (by decide)⟩

/-- C6: `wordToMorse` uppercases, maps characters through the table, drops
unmapped ones, and joins with single spaces; concrete cases include
`"SOS"`, the empty string, and the silent drop of `'#'`. -/
theorem wordToMorse_spec :
    (∀ w : String, wordToMorse w =
      joinSpace
        (((upper w).data.map fun c =>
          (lookupMorse morseCodeMapWords c).getD "").filter
            fun code => code ≠ "")) ∧
    wordToMorse "SOS" = "... --- ..." ∧
    wordToMorse "sos" = "... --- ..." ∧
    wordToMorse "" = "" ∧
    wordToMorse "S#S" = "... ..." := by
  refine ⟨?_, by decide, by decide, rfl, by decide⟩
  intro w
  by_cases hw : w = ""
  · subst hw; rfl
  · simp [wordToMorse, hw]

/-- The loader's Bool rejection test is false exactly on the spec's
acceptable payloads (non-empty, all characters A–Z; such a string cannot
contain a space, so the `includes(' ')` disjunct adds nothing). -/
theorem invalidPayloadCond_eq_false (t : String) :
    invalidPayloadCond t = false ↔ acceptablePayload t := by
  unfold invalidPayloadCond regexUpperAZ acceptablePayload
  constructor
  · intro h
    simp only [Bool.or_eq_false_iff] at h
    obtain ⟨⟨h1, h2⟩, _⟩ := h
    rw [Bool.not_eq_false'] at h2
    simp only [Bool.and_eq_true, List.all_eq_true, decide_eq_true_eq] at h2
    exact ⟨by simpa using h1, h2.2⟩
  · intro h
    obtain ⟨h1, h2⟩ := h
    simp only [Bool.or_eq_false_iff]
    refine ⟨⟨by simpa using h1, ?_⟩, ?_⟩
    · rw [Bool.not_eq_false']
      simp only [Bool.and_eq_true, List.all_eq_true, decide_eq_true_eq]
      exact ⟨by simpa using h1, h2⟩
    · rw [Bool.eq_false_iff]
      intro hcon
      have hmem : ' ' ∈ t.data := by
        simpa using hcon
      exact absurd (h2 ' ' hmem).1 (by decide)

/-- C3: the loader accepts a payload exactly when its trimmed, uppercased
form is a non-empty all-letters string (accepting it verbatim); every other
payload falls back to the fixed word `"HELLO"` with a non-null diagnostic;
every transport failure falls back to the fixed word `"MORSE"` with a
non-null diagnostic; and the simulated `"hello world"` response is rejected
into the fallback with a non-null warning. -/
theorem loader_fallback_policy :
    (∀ raw : String,
      ((loader (.payload raw)).error = none ↔
        acceptablePayload (upper (trimStr raw))) ∧
      (acceptablePayload (upper (trimStr raw)) →
        (loader (.payload raw)).word = upper (trimStr raw)) ∧
      (¬ acceptablePayload (upper (trimStr raw)) →
        (loader (.payload raw)).word = "HELLO" ∧
        (loader (.payload raw)).error ≠ none)) ∧
    (∀ msg : String,
      (loader (.failure msg)).word = "MORSE" ∧
      (loader (.failure msg)).error ≠ none) ∧
    (loader (.payload "hello world")).word = "HELLO" ∧
    (loader (.payload "hello world")).error ≠ none := by
  refine ⟨?_, fun msg => ⟨rfl, by simp [loader]⟩, by decide, by decide⟩
  intro raw
  by_cases hacc : acceptablePayload (upper (trimStr raw))
  · have hc : invalidPayloadCond (upper (trimStr raw)) = false :=
      (invalidPayloadCond_eq_false _).mpr hacc
    simp [loader, hc, hacc]
  · have hc : invalidPayloadCond (upper (trimStr raw)) = true := by
      cases hb : invalidPayloadCond (upper (trimStr raw)) with
      | false => exact absurd ((invalidPayloadCond_eq_false _).mp hb) hacc
      | true => rfl
    simp [loader, hc, hacc]

/-- Witness for C3: the valid payload `"morse"` is trimmed, uppercased and
accepted verbatim. -/
theorem loader_fallback_policy_witness :
    acceptablePayload (upper (trimStr "morse")) ∧
    (loader (.payload "morse")).word = upper (trimStr "morse") :=
  ⟨by decide, (loader_fallback_policy.1 "morse").2.1 (by decide)⟩

/-! ## Theorems about the session -/

/-- C4: a completion that differs from the current target's code sets the
validation state to `incorrect`, keeps the item index, and arms the 1500 ms
retry timeout, whose firing empties the input buffers and returns to idle
with the same target. -/
theorem incorrect_input_keeps_target (s : SessionState) (input : String)
    (item : Char) (hitem : learningSequence[s.currentItemIndex]? = some item)
    (hneq : input ≠ (lookupMorse lettersMap item).getD "") :
    (handleInputComplete input s).validationState = .incorrect ∧
    (handleInputComplete input s).currentItemIndex = s.currentItemIndex ∧
    (handleInputComplete input s).pending = some .retry ∧
    pendingDelayMs .retry = 1500 ∧
    ∀ t,
      (fireSessionTimer t
        (handleInputComplete input s)).decoder.currentMorseChar = "" ∧
      (fireSessionTimer t
        (handleInputComplete input s)).decoder.rawInput = "" ∧
      (fireSessionTimer t
        (handleInputComplete input s)).currentItemIndex
          = s.currentItemIndex ∧
      (fireSessionTimer t
        (handleInputComplete input s)).validationState = .idle := by
  unfold handleInputComplete
  rw [hitem]
  dsimp only
  rw [if_neg hneq]
  exact ⟨rfl, rfl, rfl, rfl, fun t => ⟨rfl, rfl, rfl, rfl⟩⟩

/-- Witness for C4: submitting `"-"` against target `'A'` (code `".-"`). -/
theorem incorrect_input_keeps_target_witness :
    (handleInputComplete "-" (initSession 0)).validationState = .incorrect ∧
    (handleInputComplete "-" (initSession 0)).currentItemIndex = 0 :=
  ⟨(incorrect_input_keeps_target (initSession 0) "-" 'A'
      (by decide) (by decide)).1,
   (incorrect_input_keeps_target (initSession 0) "-" 'A'
      (by decide) (by decide)).2.1⟩

set_option maxRecDepth 6000 in
/-- C7 evidence: after answering every letter correctly (ending in the
congratulations state on the last index), a further decoder completion is
still processed: a wrong code flips the state to `incorrect`; the
end-of-sequence guard never engages because the index never passes the last
letter. -/
theorem complete_session_still_processes_input :
    completedSession.currentItemIndex = learningSequence.length - 1 ∧
    completedSession.feedbackMessage
      = "Congratulations! You completed all letters." ∧
    completedSession.validationState = .correct ∧
    (handleInputComplete "." completedSession).validationState
      = .incorrect ∧
    handleInputComplete "." completedSession ≠ completedSession := by decide

/-- Helper: delivering a due timer never touches the string buffers. -/
theorem autoFire_preserves_strings (t : Nat) (s : DecoderState) :
    (autoFire t s).1.currentMorseChar = s.currentMorseChar ∧
    (autoFire t s).1.rawInput = s.rawInput := by
  rcases hct : s.charTimer with _ | d
  · simp [autoFire, hct]
  · simp only [autoFire, hct]
    split
    · exact ⟨rfl, rfl⟩
    · exact ⟨rfl, rfl⟩

/-- Helper: classification always yields a dit or a dah. -/
theorem classifySymbol_ditdah (d : Nat) :
    classifySymbol d = '.' ∨ classifySymbol d = '-' := by
  unfold classifySymbol
  split
  · exact Or.inl rfl
  · exact Or.inr rfl

/-- Helper: one full event-loop step preserves the buffer invariant on both
`currentMorseChar` and `rawInput`. -/
theorem ditDahOnly_step (s : DecoderState) (e : DEvent)
    (h1 : ditDahOnly s.currentMorseChar) (h2 : ditDahOnly s.rawInput) :
    ditDahOnly (stepTimed s e).1.currentMorseChar ∧
    ditDahOnly (stepTimed s e).1.rawInput := by
  have hf := autoFire_preserves_strings e.time s
  have h1' : ditDahOnly (autoFire e.time s).1.currentMorseChar := by
    rw [hf.1]; exact h1
  have h2' : ditDahOnly (autoFire e.time s).1.rawInput := by
    rw [hf.2]; exact h2
  show ditDahOnly (handleEvent e (autoFire e.time s).1).currentMorseChar ∧
    ditDahOnly (handleEvent e (autoFire e.time s).1).rawInput
  generalize (autoFire e.time s).1 = s1 at h1' h2'
  cases e with
  | press t => exact ⟨h1', h2'⟩
  | reset t =>
    exact ⟨fun c hc => absurd hc (List.not_mem_nil c),
      fun c hc => absurd hc (List.not_mem_nil c)⟩
  | release t =>
    show ditDahOnly (handlePressEnd t s1).currentMorseChar ∧
      ditDahOnly (handlePressEnd t s1).rawInput
    unfold handlePressEnd
    rcases hps : s1.pressStartTime with _ | t0
    · exact ⟨h1', h2'⟩
    · dsimp only
      by_cases h0 : t0 = 0

      · rw [if_pos h0]; exact ⟨h1', h2'⟩
      · rw [if_neg h0]
        constructor <;> intro c hc
        · have hd : (s1.currentMorseChar.push
              (classifySymbol (t - t0))).data
              = s1.currentMorseChar.data ++ [classifySymbol (t - t0)] := rfl
          rw [hd, List.mem_append] at hc
          rcases hc with hc | hc
          · exact h1' c hc
          · rw [List.mem_singleton] at hc
            rw [hc]; exact classifySymbol_ditdah (t - t0)
        · have hd : (s1.rawInput.push (classifySymbol (t - t0))).data
              = s1.rawInput.data ++ [classifySymbol (t - t0)] := rfl
          rw [hd, List.mem_append] at hc
          rcases hc with hc | hc
          · exact h2' c hc
          · rw [List.mem_singleton] at hc
            rw [hc]; exact classifySymbol_ditdah (t - t0)

/-- Helper: the buffer invariant is preserved along any run. -/
theorem ditDahOnly_runTimed (evts : List DEvent) :
    ∀ s : DecoderState, ditDahOnly s.currentMorseChar →
      ditDahOnly s.rawInput →
      ditDahOnly (runTimed evts s).1.currentMorseChar ∧
      ditDahOnly (runTimed evts s).1.rawInput := by
  induction evts with
  | nil => exact fun s h1 h2 => ⟨h1, h2⟩
  | cons e es ih =>
    intro s h1 h2
    have hstep := ditDahOnly_step s e h1 h2
    simp only [runTimed]
    exact ih (stepTimed s e).1 hstep.1 hstep.2

/-- C8: in every state reachable by presses, releases, (implicit) timer
fires and resets, both `currentMorseChar` and `rawInput` hold only `'.'`
and `'-'`; and whenever a session timeout changes the current target, the
decoder's buffers have been flushed to empty. -/
theorem buffer_only_dits_and_dahs :
    (∀ (evts : List DEvent) (t : Nat),
      ditDahOnly ((runTimed evts (initDecoder t)).1.currentMorseChar) ∧
      ditDahOnly ((runTimed evts (initDecoder t)).1.rawInput)) ∧
    ∀ (t : Nat) (s : SessionState),
      (fireSessionTimer t s).currentItemIndex ≠ s.currentItemIndex →
      (fireSessionTimer t s).decoder.currentMorseChar = "" ∧
      (fireSessionTimer t s).decoder.rawInput = "" := by
  constructor
  · intro evts t
    exact ditDahOnly_runTimed evts (initDecoder t)
      (fun c hc => absurd hc (List.not_mem_nil c))
      (fun c hc => absurd hc (List.not_mem_nil c))
  · intro t s hne
    rcases hp : s.pending with _ | a
    · simp only [fireSessionTimer, hp] at hne
      exact absurd rfl hne
    · cases a with
      | advance =>
        simp only [fireSessionTimer, hp] at hne ⊢
        by_cases hlt : s.currentItemIndex < learningSequence.length - 1
        · rw [if_pos hlt]; exact ⟨rfl, rfl⟩
        · rw [if_neg hlt] at hne
          exact absurd rfl hne
      | retry =>
        simp only [fireSessionTimer, hp] at hne
        exact absurd rfl hne

/-- Witness for C8: advancing from `'A'` to `'B'` changes the target and
leaves the decoder buffer empty. -/
theorem buffer_only_dits_and_dahs_witness :
    (fireSessionTimer 0
      (handleInputComplete ".-" (initSession 0))).currentItemIndex ≠
      (handleInputComplete ".-" (initSession 0)).currentItemIndex ∧
    (fireSessionTimer 0
      (handleInputComplete ".-" (initSession 0))).decoder.currentMorseChar
        = "" :=
  ⟨by decide,
   (buffer_only_dits_and_dahs.2 0 (handleInputComplete ".-" (initSession 0))
      (by decide)).1⟩

end MorseMuse
